import Mathlib

/-!
Verification of the FileCherry job-orchestration core against its
specification.  The repository ships the orchestration engine only as a
design document (docs/02_system_architecture.md, docs/05_llm_orchestration.md,
docs/06_comfyui_integration.md); the executable code under apps/ui is the
Next.js front end.  Definitions for the orchestration core are therefore
modelled from the spec, while the UI page and the jobs API route are embedded
from the TypeScript source (apps/ui/src/app/page.tsx and the jobs API
handler).
-/

namespace FileCherry

/-! ## Data model -/

/-- Modelled from the spec: StepRecord status values
`pending | running | succeeded | failed | skipped` (§3 Data model; the
Job Manager implementation is absent from the repository). -/
inductive StepStatus
  | pending
  | running
  | succeeded
  | failed
  | skipped
deriving DecidableEq, Repr

/-- Modelled from the spec: Job status values
`pending → running → \x7bcompleted | failed | partial\x7d` (§4.3). -/
inductive JobStatus
  | pending
  | running
  | completed
  | failed
  | partialStatus
deriving DecidableEq, Repr

/-- Modelled from the spec: a step status is terminal when it is
`succeeded`, `failed` or `skipped`. -/
def StepStatus.isTerminal : StepStatus → Bool
  | .succeeded => true
  | .failed => true
  | .skipped => true
  | _ => false

/-! ## C1: job-level terminal resolution -/

/-- Modelled from the spec: "Job-level terminal resolution: `completed` iff
all steps `succeeded`; `partial` iff at least one step `succeeded` and at
least one `failed`/`skipped`; `failed` iff zero steps succeeded and at least
one failed" (§4.3; the Job Manager implementation is absent from the
repository).  The three cases are mutually exclusive; statuses outside all
three cases yield `none`. -/
def resolveTerminal (ss : List StepStatus) : Option JobStatus :=
  if ss.all (· = .succeeded) then
    some .completed
  else if ss.any (· = .succeeded) && ss.any (fun s => s = .failed || s = .skipped) then
    some .partialStatus
  else if (!ss.any (· = .succeeded)) && ss.any (· = .failed) then
    some .failed
  else
    none

/-- Number of succeeded steps in a status list. -/
def countSucceeded (ss : List StepStatus) : Nat :=
  ss.countP (· = .succeeded)

theorem resolveTerminal_completed_iff (ss : List StepStatus) :
    resolveTerminal ss = some .completed ↔ ∀ s ∈ ss, s = .succeeded := by
  unfold resolveTerminal
  constructor
  · intro h
    by_cases hall : ss.all (· = .succeeded)
    · simpa [List.all_eq_true] using hall
    · simp only [hall, if_false] at h
      split_ifs at h <;> simp_all
  · intro h
    have : ss.all (· = .succeeded) := by
      simpa [List.all_eq_true] using h
    simp [this]

theorem resolveTerminal_partial_iff (ss : List StepStatus) :
    resolveTerminal ss = some .partialStatus ↔
      (∃ s ∈ ss, s = .succeeded) ∧ (∃ s ∈ ss, s = .failed ∨ s = .skipped) := by
  unfold resolveTerminal
  constructor
  · intro h
    split_ifs at h with h1 h2 h3 <;> simp_all [List.any_eq_true]
  · rintro ⟨⟨a, ha, ha2⟩, ⟨b, hb, hbor⟩⟩
    have hbne : b ≠ StepStatus.succeeded := by
      rcases hbor with h | h <;> simp [h]
    have hall : ¬ (ss.all (· = .succeeded) = true) := by
      simp only [List.all_eq_true, decide_eq_true_eq]
      intro hctr
      exact hbne (hctr b hb)
    have hany : ss.any (· = .succeeded) = true := by
      simp only [List.any_eq_true, decide_eq_true_eq]
      exact ⟨a, ha, ha2⟩
    have hfs : ss.any (fun s => s = .failed || s = .skipped) = true := by
      simp only [List.any_eq_true]
      refine ⟨b, hb, ?_⟩
      rcases hbor with h | h <;> simp [h]
    simp [hall, hany, hfs]

theorem resolveTerminal_failed_iff (ss : List StepStatus) :
    resolveTerminal ss = some .failed ↔
      (∀ s ∈ ss, s ≠ .succeeded) ∧ (∃ s ∈ ss, s = .failed) := by
  unfold resolveTerminal
  constructor
  · intro h
    split_ifs at h with h1 h2 h3 <;> simp_all [List.any_eq_true]
  · rintro ⟨hno, ⟨b, hb, hb2⟩⟩
    have hall : ¬ (ss.all (· = .succeeded) = true) := by
      simp only [List.all_eq_true, decide_eq_true_eq]
      intro hctr
      exact (hno b hb) (hctr b hb)
    have hany : ss.any (· = .succeeded) = false := by
      simp only [List.any_eq_false, decide_eq_true_eq]
      intro s hs
      simpa using hno s hs
    have hfl : ss.any (· = .failed) = true := by
      simp only [List.any_eq_true, decide_eq_true_eq]
      exact ⟨b, hb, hb2⟩
    simp [hall, hany, hfl]

/-- If all statuses are terminal and `1 ≤ k < N` steps succeeded, the
resolution is `partial`. -/
theorem resolveTerminal_partial_of_count (ss : List StepStatus)
    (hterm : ∀ s ∈ ss, s.isTerminal = true)
    (hk1 : 1 ≤ countSucceeded ss) (hkN : countSucceeded ss < ss.length) :
    resolveTerminal ss = some .partialStatus := by
  rw [resolveTerminal_partial_iff]
  constructor
  · have : 0 < ss.countP (· = .succeeded) := hk1
    rw [List.countP_pos_iff] at this
    obtain ⟨a, ha, hs⟩ := this
    exact ⟨a, ha, by simpa using hs⟩
  · have hlt : ss.countP (· = .succeeded) < ss.length := hkN
    have : ∃ b ∈ ss, ¬ ((b = StepStatus.succeeded : Prop)) := by
      by_contra hctr
      push_neg at hctr
      have : ss.countP (· = .succeeded) = ss.length := by
        rw [List.countP_eq_length]
        intro a ha
        simpa using hctr a ha
      omega
    obtain ⟨b, hb, hbne⟩ := this
    refine ⟨b, hb, ?_⟩
    have := hterm b hb
    cases b <;> simp_all [StepStatus.isTerminal]

/-- C1: for a Job whose steps have all reached a terminal status, the spec's
terminal resolution assigns `completed` iff every step succeeded, `failed`
iff zero steps succeeded and at least one failed, `partial` iff at least one
step succeeded and at least one failed or was skipped; and whenever
`1 ≤ k < N` of the `N` steps succeeded, the status is `partial`. -/
theorem job_terminal_resolution (ss : List StepStatus)
    (hterm : ∀ s ∈ ss, s.isTerminal = true) :
    (resolveTerminal ss = some .completed ↔ ∀ s ∈ ss, s = .succeeded)
    ∧ (resolveTerminal ss = some .failed ↔
        (∀ s ∈ ss, s ≠ .succeeded) ∧ (∃ s ∈ ss, s = .failed))
    ∧ (resolveTerminal ss = some .partialStatus ↔
        (∃ s ∈ ss, s = .succeeded) ∧ (∃ s ∈ ss, s = .failed ∨ s = .skipped))
    ∧ (1 ≤ countSucceeded ss → countSucceeded ss < ss.length →
        resolveTerminal ss = some .partialStatus
        ∧ resolveTerminal ss ≠ some .completed
        ∧ resolveTerminal ss ≠ some .failed) :=
  ⟨resolveTerminal_completed_iff ss, resolveTerminal_failed_iff ss,
    resolveTerminal_partial_iff ss, fun hk1 hkN => by
      have hp := resolveTerminal_partial_of_count ss hterm hk1 hkN
      refine ⟨hp, ?_, ?_⟩ <;> simp [hp]⟩

/-- Witness for C1: a concrete two-step job with one success and one
failure resolves to `partial` and satisfies all three characterisations. -/
theorem job_terminal_resolution_witness :
    resolveTerminal [StepStatus.succeeded, StepStatus.failed]
        = some JobStatus.partialStatus
    ∧ resolveTerminal [StepStatus.succeeded, StepStatus.failed]
        ≠ some JobStatus.completed
    ∧ resolveTerminal [StepStatus.succeeded, StepStatus.failed]
        ≠ some JobStatus.failed :=
  (job_terminal_resolution [StepStatus.succeeded, StepStatus.failed]
      (by decide)).2.2.2 (by decide) (by decide)

/-! ## C6: inventory scanner determinism -/

/-- Modelled from the spec: file kinds `image|document|data|other`
(§3 Data model; the Inventory Scanner implementation is absent from the
repository). -/
inductive FileKind
  | image
  | document
  | dataFile
  | other
deriving DecidableEq, Repr

/-- Modelled from the spec: `InventoryItem: \x7bpath, kind, sizeBytes\x7d`
(§3 Data model). -/
structure InventoryItem where
  path : String
  kind : FileKind
  sizeBytes : Nat
deriving DecidableEq, Repr

/-- Lexicographic-or-equal comparison of inventory items by path. -/
def pathLe (a b : InventoryItem) : Prop := a.path ≤ b.path

/-- Strict lexicographic comparison of inventory items by path. -/
def pathLt (a b : InventoryItem) : Prop := a.path < b.path

instance : DecidableRel pathLe := fun a b =>
  inferInstanceAs (Decidable (a.path ≤ b.path))

instance : IsTotal InventoryItem pathLe := ⟨fun a b => le_total a.path b.path⟩

instance : IsTrans InventoryItem pathLe := ⟨fun _ _ _ h1 h2 => le_trans h1 h2⟩

instance : IsAntisymm InventoryItem pathLt :=
  ⟨fun _ _ h1 h2 => absurd h1 (lt_asymm h2)⟩

/-- Modelled from the spec: `scan(rootPath) → InventoryItem[]`, deterministic
ordering, lexicographic by path (§4.1; the Inventory Scanner implementation
is absent from the repository).  The directory walk yields the classified
entries of the input tree in an unspecified filesystem order; `scan` sorts
them lexicographically by path. -/
def scan (entries : List InventoryItem) : List InventoryItem :=
  List.insertionSort pathLe entries

/-- A sorted-by-`≤`-path list whose paths are pairwise distinct is strictly
sorted by path. -/
theorem pairwise_pathLt_of_le_of_ne (l : List InventoryItem)
    (hs : l.Pairwise pathLe) (hne : l.Pairwise (fun a b => a.path ≠ b.path)) :
    l.Pairwise pathLt := by
  rw [List.pairwise_iff_get] at hs hne ⊢
  intro i j hij
  exact lt_of_le_of_ne (hs i j hij) (hne i j hij)

/-- C6: `scan` is deterministic.  An unchanged input tree presented in any
two filesystem enumeration orders (permutations of the same classified
entries, with the distinct paths of a real directory tree) produces the
identical InventoryItem list, ordered lexicographically by path and
containing exactly the tree's entries; in particular repeated calls are
byte-identical. -/
theorem scan_deterministic (t1 t2 : List InventoryItem)
    (hperm : t1.Perm t2)
    (hnodup : t1.Pairwise (fun a b => a.path ≠ b.path)) :
    scan t1 = scan t2
    ∧ (scan t1).Pairwise pathLe
    ∧ (scan t1).Perm t1
    ∧ scan t1 = scan t1 := by
  have hs1 : (scan t1).Pairwise pathLe := List.sorted_insertionSort pathLe t1
  have hs2 : (scan t2).Pairwise pathLe := List.sorted_insertionSort pathLe t2
  have hp1 : (scan t1).Perm t1 := List.perm_insertionSort pathLe t1
  have hp2 : (scan t2).Perm t2 := List.perm_insertionSort pathLe t2
  have hpp : (scan t1).Perm (scan t2) :=
    (hp1.trans hperm).trans hp2.symm
  have hne1 : (scan t1).Pairwise (fun a b => a.path ≠ b.path) :=
    (hp1.pairwise_iff (fun h => h.symm)).mpr hnodup
  have hne2 : (scan t2).Pairwise (fun a b => a.path ≠ b.path) :=
    ((hp2.trans hperm.symm).pairwise_iff (fun h => h.symm)).mpr hnodup
  have hlt1 : (scan t1).Pairwise pathLt := pairwise_pathLt_of_le_of_ne _ hs1 hne1
  have hlt2 : (scan t2).Pairwise pathLt := pairwise_pathLt_of_le_of_ne _ hs2 hne2
  exact ⟨List.eq_of_perm_of_sorted hpp hlt1 hlt2, hs1, hp1, rfl⟩

/-- Witness for C6: two enumeration orders of a concrete two-file tree scan
to the same lexicographically ordered list. -/
theorem scan_deterministic_witness :
    scan [⟨"inputs/cars/photo-001.jpg", FileKind.image, 345678⟩,
          ⟨"inputs/sales/2024-q1-report.pdf", FileKind.document, 123456⟩]
      = scan [⟨"inputs/sales/2024-q1-report.pdf", FileKind.document, 123456⟩,
              ⟨"inputs/cars/photo-001.jpg", FileKind.image, 345678⟩] :=
  (scan_deterministic
    [⟨"inputs/cars/photo-001.jpg", FileKind.image, 345678⟩,
     ⟨"inputs/sales/2024-q1-report.pdf", FileKind.document, 123456⟩]
    [⟨"inputs/sales/2024-q1-report.pdf", FileKind.document, 123456⟩,
     ⟨"inputs/cars/photo-001.jpg", FileKind.image, 345678⟩]
    (List.Perm.swap _ _ _) (by decide)).1

/-! ## C3: validator completeness -/

/-- Modelled from the spec: loosely-typed JSON tool parameters, represented
as a closed union of value shapes (§9 Design notes). -/
inductive ParamValue
  | strVal (s : String)
  | numVal (n : Int)
  | boolVal (b : Bool)
deriving DecidableEq, Repr

/-- The type of a parameter value. -/
inductive ParamType
  | strType
  | numType
  | boolType
deriving DecidableEq, Repr

/-- Type of a concrete parameter value. -/
def ParamValue.typeOf : ParamValue → ParamType
  | .strVal _ => .strType
  | .numVal _ => .numType
  | .boolVal _ => .boolType

/-- Modelled from the spec: a StepSpec is
`\x7btoolKind, parameters: mapping of name→value, inputPaths\x7d` (§3). -/
structure StepSpec where
  toolKind : String
  parameters : List (String × ParamValue)
  inputPaths : List String
deriving DecidableEq, Repr

/-- Modelled from the spec: `Plan: \x7bsummary, steps\x7d` (§3). -/
structure Plan where
  summary : String
  steps : List StepSpec
deriving DecidableEq, Repr

/-- Modelled from the spec: a registered tool kind with its required
parameter schema (§4.2, §9). -/
structure ToolSchema where
  kind : String
  requiredParams : List (String × ParamType)
deriving DecidableEq, Repr

/-- Modelled from the spec: the `ValidationError` taxonomy — unknown tool,
missing/ill-typed required parameter, unknown path, empty plan (§4.2, §7). -/
inductive ValidationError
  | unknownTool (kind : String)
  | missingParam (kind name : String)
  | badParamType (kind name : String)
  | unknownPath (path : String)
  | emptyPlan
deriving DecidableEq, Repr

/-- Look up a parameter by name in a step's parameter mapping. -/
def lookupParam (ps : List (String × ParamValue)) (name : String) :
    Option ParamValue :=
  (ps.find? (fun p => p.1 == name)).map (·.2)

/-- Errors for the required parameters of one registered tool kind. -/
def paramErrors (kind : String) (req : List (String × ParamType))
    (ps : List (String × ParamValue)) : List ValidationError :=
  req.flatMap (fun rp =>
    match lookupParam ps rp.1 with
    | none => [.missingParam kind rp.1]
    | some v => if v.typeOf = rp.2 then [] else [.badParamType kind rp.1])

/-- Modelled from the spec: all validation errors of a single step — its
`toolKind` must be in the registered tool set, every required parameter for
that kind must be present and type-correct, and every `inputPaths` entry
must exist in the inventory snapshot (§4.2; the Plan Validator
implementation is absent from the repository). -/
def stepErrors (registry : List ToolSchema) (inventory : List InventoryItem)
    (s : StepSpec) : List ValidationError :=
  (match registry.find? (fun t => t.kind == s.toolKind) with
   | none => [.unknownTool s.toolKind]
   | some t => paramErrors s.toolKind t.requiredParams s.parameters)
  ++ s.inputPaths.filterMap (fun p =>
      if inventory.any (fun it => it.path == p) then none
      else some (.unknownPath p))

/-- Modelled from the spec: `validate(plan, inventory)` is a pure function
that checks every rule on every step exhaustively and returns the complete
error set — an empty result means the plan is valid (§4.2).  The rules are
checked on all steps; nothing stops at the first error. -/
def validate (registry : List ToolSchema) (plan : Plan)
    (inventory : List InventoryItem) : List ValidationError :=
  (if plan.steps.isEmpty then [ValidationError.emptyPlan] else [])
  ++ plan.steps.flatMap (stepErrors registry inventory)

/-- An unregistered tool kind contributes its error to a step's error set. -/
theorem unknownTool_mem_stepErrors (registry : List ToolSchema)
    (inventory : List InventoryItem) (s : StepSpec)
    (h : ∀ t ∈ registry, t.kind ≠ s.toolKind) :
    ValidationError.unknownTool s.toolKind ∈ stepErrors registry inventory s := by
  unfold stepErrors
  have hfind : registry.find? (fun t => t.kind == s.toolKind) = none := by
    rw [List.find?_eq_none]
    intro t ht
    simpa using h t ht
  rw [hfind]
  simp

/-- A referenced path absent from the inventory contributes its error to a
step's error set. -/
theorem unknownPath_mem_stepErrors (registry : List ToolSchema)
    (inventory : List InventoryItem) (s : StepSpec) (p : String)
    (hp : p ∈ s.inputPaths) (habs : ∀ it ∈ inventory, it.path ≠ p) :
    ValidationError.unknownPath p ∈ stepErrors registry inventory s := by
  unfold stepErrors
  have hany : inventory.any (fun it => it.path == p) = false := by
    simp only [List.any_eq_false]
    intro it hit
    simpa using habs it hit
  refine List.mem_append.mpr (Or.inr ?_)
  rw [List.mem_filterMap]
  exact ⟨p, hp, by rw [hany]; simp⟩

/-- C3: validation is exhaustive.  For any plan containing a step that
references a path absent from the inventory and a step (possibly the same)
that invokes an unregistered tool kind, `validate` returns both the
unknown-tool error and the unknown-path error — it does not stop at the
first rule violation. -/
theorem validate_collects_all_errors (registry : List ToolSchema)
    (plan : Plan) (inventory : List InventoryItem)
    (s1 : StepSpec) (hs1 : s1 ∈ plan.steps)
    (htool : ∀ t ∈ registry, t.kind ≠ s1.toolKind)
    (s2 : StepSpec) (hs2 : s2 ∈ plan.steps) (p : String)
    (hp : p ∈ s2.inputPaths) (habs : ∀ it ∈ inventory, it.path ≠ p) :
    ValidationError.unknownTool s1.toolKind ∈ validate registry plan inventory
    ∧ ValidationError.unknownPath p ∈ validate registry plan inventory := by
  constructor
  · refine List.mem_append.mpr (Or.inr ?_)
    rw [List.mem_flatMap]
    exact ⟨s1, hs1, unknownTool_mem_stepErrors registry inventory s1 htool⟩
  · refine List.mem_append.mpr (Or.inr ?_)
    rw [List.mem_flatMap]
    exact ⟨s2, hs2, unknownPath_mem_stepErrors registry inventory s2 p hp habs⟩

/-- Witness for C3: a concrete plan whose single step both invokes an
unregistered tool kind and references a path missing from the inventory
yields both errors. -/
theorem validate_collects_all_errors_witness :
    ValidationError.unknownTool "MIXED_REPORT"
        ∈ validate [⟨"IMAGE_PIPELINE", []⟩]
            ⟨"demo", [⟨"MIXED_REPORT", [], ["inputs/missing.pdf"]⟩]⟩
            [⟨"inputs/cars/photo-001.jpg", FileKind.image, 345678⟩]
    ∧ ValidationError.unknownPath "inputs/missing.pdf"
        ∈ validate [⟨"IMAGE_PIPELINE", []⟩]
            ⟨"demo", [⟨"MIXED_REPORT", [], ["inputs/missing.pdf"]⟩]⟩
            [⟨"inputs/cars/photo-001.jpg", FileKind.image, 345678⟩] :=
  validate_collects_all_errors [⟨"IMAGE_PIPELINE", []⟩]
    ⟨"demo", [⟨"MIXED_REPORT", [], ["inputs/missing.pdf"]⟩]⟩
    [⟨"inputs/cars/photo-001.jpg", FileKind.image, 345678⟩]
    ⟨"MIXED_REPORT", [], ["inputs/missing.pdf"]⟩ (by decide) (by decide)
    ⟨"MIXED_REPORT", [], ["inputs/missing.pdf"]⟩ (by decide) "inputs/missing.pdf"
    (by decide) (by decide)

/-! ## C4: createJob atomicity on error -/

/-- Modelled from the spec: `StepRecord: \x7bspec, status, outputs, error?\x7d`
(§3 Data model; timestamps omitted as no claim concerns them). -/
structure StepRecord where
  spec : StepSpec
  status : StepStatus
  outputs : List String
  error : Option String
deriving DecidableEq, Repr

/-- Modelled from the spec: `Job: \x7bjobId, intent, plan, steps, status\x7d`
(§3 Data model). -/
structure Job where
  jobId : String
  intent : String
  plan : Plan
  steps : List StepRecord
  status : JobStatus
deriving DecidableEq, Repr

/-- Modelled from the spec: the Manifest Store holds one manifest record per
`jobId`; a manifest is the serialized projection of a Job (§3, §4.5). -/
structure ManifestStore where
  manifests : List (String × Job)
deriving DecidableEq, Repr

/-- Modelled from the spec: scanning either yields an inventory snapshot or
fails with `IOError` (§4.1, §7). -/
inductive ScanResult
  | ok (inv : List InventoryItem)
  | ioError (msg : String)
deriving DecidableEq, Repr

/-- Modelled from the spec: the Planning Client either extracts a plan from
the planning-service response or fails with `PlanningError` (§4.2, §6). -/
inductive PlanResult
  | ok (p : Plan)
  | planningError (msg : String)
deriving DecidableEq, Repr

/-- Modelled from the spec: the errors fatal to job creation (§7). -/
inductive CreateJobError
  | io (msg : String)
  | planning (msg : String)
  | validation (errs : List ValidationError)
deriving DecidableEq, Repr

/-- Fresh pending StepRecords for an accepted plan (§3: Job/StepRecords are
created at plan-acceptance time). -/
def initialRecords (p : Plan) : List StepRecord :=
  p.steps.map (fun s => ⟨s, .pending, [], none⟩)

/-- Modelled from the spec: `createJob(intent)` runs scan → plan → validate →
persist-pending; `IOError` during scan and `PlanningError`/`ValidationError`
during plan creation are fatal — no Job object and no manifest are created
(§6, §7; the Job Manager implementation is absent from the repository).
The external scanning and planning outcomes are parameters. -/
def createJob (registry : List ToolSchema) (scanRes : ScanResult)
    (planner : List InventoryItem → PlanResult) (jobId intent : String)
    (store : ManifestStore) : Except CreateJobError Job × ManifestStore :=
  match scanRes with
  | .ioError m => (.error (.io m), store)
  | .ok inv =>
    match planner inv with
    | .planningError m => (.error (.planning m), store)
    | .ok p =>
      match validate registry p inv with
      | [] =>
        let job : Job := ⟨jobId, intent, p, initialRecords p, .pending⟩
        (.ok job, ⟨store.manifests ++ [(jobId, job)]⟩)
      | e :: es => (.error (.validation (e :: es)), store)

/-- C4: `createJob` is atomic on error.  Whenever it returns an error — scan
`IOError`, `PlanningError`, or a non-empty `ValidationError` set — the
manifest store is unchanged and no Job is returned; an `IOError` or
`PlanningError` is surfaced as such; and when the (possibly prose-embedded)
plan references a path absent from the inventory, the returned validation
errors list that exact path. -/
theorem createJob_atomic_on_error (registry : List ToolSchema)
    (scanRes : ScanResult) (planner : List InventoryItem → PlanResult)
    (jobId intent : String) (store : ManifestStore) :
    (∀ e, (createJob registry scanRes planner jobId intent store).1 = .error e →
        (createJob registry scanRes planner jobId intent store).2 = store)
    ∧ (∀ m, scanRes = .ioError m →
        createJob registry scanRes planner jobId intent store
          = (.error (.io m), store))
    ∧ (∀ inv m, scanRes = .ok inv → planner inv = .planningError m →
        createJob registry scanRes planner jobId intent store
          = (.error (.planning m), store))
    ∧ (∀ inv p, scanRes = .ok inv → planner inv = .ok p →
        ∀ s ∈ p.steps, ∀ q ∈ s.inputPaths, (∀ it ∈ inv, it.path ≠ q) →
        ∃ errs, createJob registry scanRes planner jobId intent store
              = (.error (.validation errs), store)
          ∧ ValidationError.unknownPath q ∈ errs) := by
  refine ⟨?_, ?_, ?_, ?_⟩
  · intro e he
    unfold createJob at he ⊢
    cases scanRes with
    | ioError m => rfl
    | ok inv =>
      cases hpl : planner inv with
      | planningError m => simp [hpl]
      | ok p =>
        simp only [hpl] at he ⊢
        cases hv : validate registry p inv with
        | nil => simp [hv] at he
        | cons a as => simp [hv]
  · intro m hm
    subst hm
    rfl
  · intro inv m hs hpl
    subst hs
    simp [createJob, hpl]
  · intro inv p hs hpl s hsmem q hq habs
    subst hs
    have hmem : ValidationError.unknownPath q ∈ validate registry p inv := by
      refine List.mem_append.mpr (Or.inr ?_)
      rw [List.mem_flatMap]
      exact ⟨s, hsmem, unknownPath_mem_stepErrors registry inv s q hq habs⟩
    cases hv : validate registry p inv with
    | nil => rw [hv] at hmem; cases hmem
    | cons a as =>
      refine ⟨a :: as, ?_, hv ▸ hmem⟩
      simp [createJob, hpl, hv]

/-- Witness for C4: a concrete planner response embedding a plan that
references `inputs/missing.pdf`, absent from the inventory, makes
`createJob` return a validation error listing that exact path while the
manifest store (here empty) is unchanged. -/
theorem createJob_atomic_on_error_witness :
    ∃ errs,
      createJob [⟨"IMAGE_PIPELINE", []⟩] (.ok [⟨"inputs/cars/photo-001.jpg", FileKind.image, 345678⟩])
          (fun _ => .ok ⟨"demo", [⟨"IMAGE_PIPELINE", [], ["inputs/missing.pdf"]⟩]⟩)
          "job-1" "enhance the cars" ⟨[]⟩
        = (.error (.validation errs), ⟨[]⟩)
      ∧ ValidationError.unknownPath "inputs/missing.pdf" ∈ errs :=
  (createJob_atomic_on_error [⟨"IMAGE_PIPELINE", []⟩]
      (.ok [⟨"inputs/cars/photo-001.jpg", FileKind.image, 345678⟩])
      (fun _ => .ok ⟨"demo", [⟨"IMAGE_PIPELINE", [], ["inputs/missing.pdf"]⟩]⟩)
      "job-1" "enhance the cars" ⟨[]⟩).2.2.2
    [⟨"inputs/cars/photo-001.jpg", FileKind.image, 345678⟩]
    ⟨"demo", [⟨"IMAGE_PIPELINE", [], ["inputs/missing.pdf"]⟩]⟩
    rfl rfl ⟨"IMAGE_PIPELINE", [], ["inputs/missing.pdf"]⟩ (by decide)
    "inputs/missing.pdf" (by decide) (by decide)

/-! ## Job Manager execution model (C2, C5) -/

/-- Modelled from the spec: the outcome of one Step Executor call —
`(outputs: path[], error?: ErrorInfo)` (§4.3 dispatch contract); a
`TimeoutError` is a variant of `ExecutionError` and is carried the same
way (§7). -/
structure ExecResult where
  outputs : List String
  error : Option String
deriving DecidableEq, Repr

/-- Modelled from the spec: the Job Manager applies one executor outcome to
the dispatched step's record — `succeeded` with the produced outputs when
there is no error, `failed` carrying the error otherwise (§4.3, §7). -/
def applyResult (r : ExecResult) (rec : StepRecord) : StepRecord :=
  match r.error with
  | none => { rec with status := .succeeded, outputs := r.outputs }
  | some e => { rec with status := .failed, outputs := r.outputs, error := some e }

/-- An executor outcome always leaves the record in a terminal status. -/
theorem applyResult_isTerminal (r : ExecResult) (rec : StepRecord) :
    (applyResult r rec).status.isTerminal = true := by
  unfold applyResult
  cases r.error <;> simp [StepStatus.isTerminal]

/-- An executor outcome leaves the record `succeeded` or `failed`. -/
theorem applyResult_status (r : ExecResult) (rec : StepRecord) :
    (applyResult r rec).status = .succeeded ∨ (applyResult r rec).status = .failed := by
  unfold applyResult
  cases r.error <;> simp

/-- Modelled from the spec: sequential dispatch with resume — the Job
Manager walks the StepRecords in plan order starting at absolute index `i`;
a record whose status is already terminal (reloaded from the Manifest) is
kept as-is and never re-executed, a non-terminal record is dispatched to
the executor for its index (§4.3; §8 crash recovery; the Job Manager
implementation is absent from the repository).  The executor outcome for
step `n` is given by the oracle `exec n`. -/
def runFrom (exec : Nat → ExecResult) (i : Nat) :
    List StepRecord → List StepRecord
  | [] => []
  | rec :: rest =>
      (if rec.status.isTerminal then rec else applyResult (exec i) rec)
        :: runFrom exec (i + 1) rest

/-- A full dispatch (or resume) pass over a job's records. -/
def runJob (exec : Nat → ExecResult) (recs : List StepRecord) :
    List StepRecord :=
  runFrom exec 0 recs

/-- Absolute indices of the records a run starting at index `i` actually
dispatches (the non-terminal ones). -/
def dispatched (i : Nat) : List StepRecord → List Nat
  | [] => []
  | rec :: rest =>
      (if rec.status.isTerminal then [] else [i]) ++ dispatched (i + 1) rest

/-- Modelled from the spec: the manifest persisted after `k`
step-transitions of a fresh job — the Job Manager immediately persists each
resulting StepRecord before considering the next step, so the stored
manifest carries executor outcomes for the first `k` records and the
original records after them (§4.3 dispatch contract; `i` is the absolute
index of the first record). -/
def persistedAfter (exec : Nat → ExecResult) (i k : Nat) :
    List StepRecord → List StepRecord
  | [] => []
  | rec :: rest =>
      (if i < k then applyResult (exec i) rec else rec)
        :: persistedAfter exec (i + 1) k rest

theorem runFrom_getElem (exec : Nat → ExecResult) (i : Nat)
    (recs : List StepRecord) (j : Nat) :
    (runFrom exec i recs)[j]? = recs[j]?.map
      (fun rec => if rec.status.isTerminal then rec
        else applyResult (exec (i + j)) rec) := by
  induction recs generalizing i j with
  | nil => simp [runFrom]
  | cons rec rest ih =>
    cases j with
    | zero => simp [runFrom]
    | succ j =>
      simp only [runFrom, List.getElem?_cons_succ]
      rw [ih (i + 1) j]
      ring_nf

theorem persistedAfter_getElem (exec : Nat → ExecResult) (i k : Nat)
    (recs : List StepRecord) (j : Nat) :
    (persistedAfter exec i k recs)[j]? = recs[j]?.map
      (fun rec => if i + j < k then applyResult (exec (i + j)) rec else rec) := by
  induction recs generalizing i j with
  | nil => simp [persistedAfter]
  | cons rec rest ih =>
    cases j with
    | zero => simp [persistedAfter]
    | succ j =>
      simp only [persistedAfter, List.getElem?_cons_succ]
      rw [ih (i + 1) j]
      ring_nf

theorem mem_dispatched (i k : Nat) (recs : List StepRecord)
    (h : k ∈ dispatched i recs) :
    ∃ j rec, k = i + j ∧ recs[j]? = some rec
      ∧ rec.status.isTerminal = false := by
  induction recs generalizing i with
  | nil => simp [dispatched] at h
  | cons rec rest ih =>
    simp only [dispatched, List.mem_append] at h
    rcases h with h | h
    · by_cases ht : rec.status.isTerminal
      · simp [ht] at h
      · rw [if_neg ht, List.mem_singleton] at h
        exact ⟨0, rec, by rw [h]; omega, by simp, by simpa using ht⟩
    · obtain ⟨j, r, hk, hr, hterm⟩ := ih (i + 1) h
      exact ⟨j + 1, r, by omega, by simpa using hr, hterm⟩

/-- C2: crash recovery.  The manifest persisted after StepRecord `i`'s
transition carries StepRecord `i`'s executor outcome (persistence happens
before the next step is considered); reloading that manifest and resuming
dispatches no step with index `≤ i` and leaves every such record exactly as
persisted — StepRecord `i` is not re-executed, whatever the resumed run's
executor outcomes are. -/
theorem crash_recovery_no_reexecution (exec execResume : Nat → ExecResult)
    (recs : List StepRecord) (i : Nat) (_hi : i < recs.length) :
    (∀ j rec0, j ≤ i → recs[j]? = some rec0 →
        (persistedAfter exec 0 (i + 1) recs)[j]?
          = some (applyResult (exec j) rec0))
    ∧ (∀ j, j ≤ i → j ∉ dispatched 0 (persistedAfter exec 0 (i + 1) recs))
    ∧ (∀ j, j ≤ i →
        (runFrom execResume 0 (persistedAfter exec 0 (i + 1) recs))[j]?
          = (persistedAfter exec 0 (i + 1) recs)[j]?) := by
  have hM : ∀ j, j ≤ i →
      (persistedAfter exec 0 (i + 1) recs)[j]?
        = recs[j]?.map (applyResult (exec j)) := by
    intro j hj
    rw [persistedAfter_getElem]
    have hlt : j < i + 1 := by omega
    cases recs[j]? with
    | none => simp
    | some rec0 => simp [hlt]
  refine ⟨?_, ?_, ?_⟩
  · intro j rec0 hj hrec
    rw [hM j hj, hrec]
    rfl
  · intro j hj hmem
    obtain ⟨j', rec0, hk, hget, hterm⟩ := mem_dispatched 0 j _ hmem
    have hj' : j' = j := by omega
    subst hj'
    rw [hM j' hj] at hget
    cases hrec : recs[j']? with
    | none => rw [hrec] at hget; cases hget
    | some orig =>
      rw [hrec] at hget
      have : rec0 = applyResult (exec j') orig := by
        simpa using hget.symm
      rw [this, applyResult_isTerminal] at hterm
      cases hterm
  · intro j hj
    rw [runFrom_getElem]
    rw [hM j hj]
    cases hrec : recs[j]? with
    | none => simp
    | some orig => simp [applyResult_isTerminal]

/-- Witness for C2: a two-step job crashes right after StepRecord 0 is
persisted; resuming from the reloaded manifest does not dispatch step 0
again, and leaves its persisted record untouched. -/
theorem crash_recovery_no_reexecution_witness :
    (0 ∉ dispatched 0 (persistedAfter (fun _ => ⟨["outputs/job-1/a.png"], none⟩) 0 1
        [⟨⟨"IMAGE_PIPELINE", [], ["inputs/a.jpg"]⟩, .pending, [], none⟩,
         ⟨⟨"DOC_ANALYSIS", [], ["inputs/b.pdf"]⟩, .pending, [], none⟩]))
    ∧ (runFrom (fun _ => ⟨[], some "timeout"⟩) 0
        (persistedAfter (fun _ => ⟨["outputs/job-1/a.png"], none⟩) 0 1
          [⟨⟨"IMAGE_PIPELINE", [], ["inputs/a.jpg"]⟩, .pending, [], none⟩,
           ⟨⟨"DOC_ANALYSIS", [], ["inputs/b.pdf"]⟩, .pending, [], none⟩]))[0]?
      = (persistedAfter (fun _ => ⟨["outputs/job-1/a.png"], none⟩) 0 1
          [⟨⟨"IMAGE_PIPELINE", [], ["inputs/a.jpg"]⟩, .pending, [], none⟩,
           ⟨⟨"DOC_ANALYSIS", [], ["inputs/b.pdf"]⟩, .pending, [], none⟩])[0]? :=
  ⟨(crash_recovery_no_reexecution (fun _ => ⟨["outputs/job-1/a.png"], none⟩)
      (fun _ => ⟨[], some "timeout"⟩)
      [⟨⟨"IMAGE_PIPELINE", [], ["inputs/a.jpg"]⟩, .pending, [], none⟩,
       ⟨⟨"DOC_ANALYSIS", [], ["inputs/b.pdf"]⟩, .pending, [], none⟩]
      0 (by decide)).2.1 0 (Nat.le_refl 0),
   (crash_recovery_no_reexecution (fun _ => ⟨["outputs/job-1/a.png"], none⟩)
      (fun _ => ⟨[], some "timeout"⟩)
      [⟨⟨"IMAGE_PIPELINE", [], ["inputs/a.jpg"]⟩, .pending, [], none⟩,
       ⟨⟨"DOC_ANALYSIS", [], ["inputs/b.pdf"]⟩, .pending, [], none⟩]
      0 (by decide)).2.2 0 (Nat.le_refl 0)⟩

/-- C5: executor failures are local.  For a fresh job (all records pending):
every step is dispatched and its final record is its own executor outcome
applied to its own initial record; a step's final record depends only on its
own executor outcome, so an `ExecutionError`/`TimeoutError` raised for one
step never alters a sibling's record; and no record ends aborted or skipped
— every final status is `succeeded` or `failed`. -/
theorem step_failure_locality (exec execAlt : Nat → ExecResult)
    (recs : List StepRecord) (hpend : ∀ r ∈ recs, r.status = .pending) :
    (∀ (j : Nat) (rec0 : StepRecord), recs[j]? = some rec0 →
        (runJob exec recs)[j]? = some (applyResult (exec j) rec0))
    ∧ (∀ j : Nat, exec j = execAlt j →
        (runJob exec recs)[j]? = (runJob execAlt recs)[j]?)
    ∧ (∀ (j : Nat) (rec : StepRecord), (runJob exec recs)[j]? = some rec →
        rec.status = .succeeded ∨ rec.status = .failed) := by
  have hrun : ∀ (e : Nat → ExecResult) j,
      (runJob e recs)[j]? = recs[j]?.map (fun rec0 => applyResult (e j) rec0) := by
    intro e j
    unfold runJob
    rw [runFrom_getElem]
    cases hrec : recs[j]? with
    | none => simp
    | some rec0 =>
      have hmem : rec0 ∈ recs := List.getElem?_mem hrec
      have : rec0.status = .pending := hpend rec0 hmem
      simp [this, StepStatus.isTerminal]
  refine ⟨?_, ?_, ?_⟩
  · intro j rec0 hrec
    rw [hrun exec j, hrec]
    rfl
  · intro j hsame
    rw [hrun exec j, hrun execAlt j, hsame]
  · intro j rec hrec
    rw [hrun exec j] at hrec
    cases hget : recs[j]? with
    | none => rw [hget] at hrec; cases hrec
    | some rec0 =>
      rw [hget] at hrec
      have : rec = applyResult (exec j) rec0 := by simpa using hrec.symm
      rw [this]
      exact applyResult_status (exec j) rec0

/-- Witness for C5: with an executor oracle that fails step 0 and succeeds
step 1, the sibling step 1 is still dispatched and its record carries its
own successful outcome. -/
theorem step_failure_locality_witness :
    (runJob (fun n => if n = 0 then ⟨[], some "comfyui unreachable"⟩
        else ⟨["outputs/job-1/b.txt"], none⟩)
      [⟨⟨"IMAGE_PIPELINE", [], ["inputs/a.jpg"]⟩, .pending, [], none⟩,
       ⟨⟨"DOC_ANALYSIS", [], ["inputs/b.pdf"]⟩, .pending, [], none⟩])[1]?
      = some (applyResult
          ((fun n => if n = 0 then ⟨[], some "comfyui unreachable"⟩
            else ⟨["outputs/job-1/b.txt"], none⟩) 1)
          ⟨⟨"DOC_ANALYSIS", [], ["inputs/b.pdf"]⟩, .pending, [], none⟩) :=
  (step_failure_locality
      (fun n => if n = 0 then ⟨[], some "comfyui unreachable"⟩
        else ⟨["outputs/job-1/b.txt"], none⟩)
      (fun n => if n = 0 then ⟨[], some "comfyui unreachable"⟩
        else ⟨["outputs/job-1/b.txt"], none⟩)
      [⟨⟨"IMAGE_PIPELINE", [], ["inputs/a.jpg"]⟩, .pending, [], none⟩,
       ⟨⟨"DOC_ANALYSIS", [], ["inputs/b.pdf"]⟩, .pending, [], none⟩]
      (by decide)).1 1
    ⟨⟨"DOC_ANALYSIS", [], ["inputs/b.pdf"]⟩, .pending, [], none⟩ (by decide)

/-! ## C7: StepRecord statuses never regress -/

/-- Modelled from the spec: the status transitions the Job Manager may
apply to a StepRecord — `pending → running → \x7bsucceeded | failed\x7d`, and
`pending → skipped` when a prior required step failed or the job is
cancelled (§4.3, §5; the Job Manager implementation is absent from the
repository). -/
inductive StepTransition : StepStatus → StepStatus → Prop
  | start : StepTransition .pending .running
  | succeed : StepTransition .running .succeeded
  | fail : StepTransition .running .failed
  | skip : StepTransition .pending .skipped

/-- Position of a status in the `pending → running → terminal` order. -/
def statusRank : StepStatus → Nat
  | .pending => 0
  | .running => 1
  | .succeeded => 2
  | .failed => 2
  | .skipped => 2

/-- Every single Job Manager transition strictly advances the status
order, and in particular changes the status. -/
theorem stepTransition_rank_lt {s t : StepStatus} (h : StepTransition s t) :
    statusRank s < statusRank t ∧ s ≠ t := by
  cases h <;> simp [statusRank]

/-- C7: no reachable sequence of Job Manager status transitions ever moves
a StepRecord backwards in the order `pending → running →
\x7bsucceeded | failed | skipped\x7d`: along any non-empty transition chain the
status order strictly increases, so once a step leaves a status it never
returns to it. -/
theorem stepRecord_no_regression {s t : StepStatus}
    (h : Relation.TransGen StepTransition s t) :
    statusRank s < statusRank t ∧ s ≠ t := by
  have hrank : statusRank s < statusRank t := by
    induction h with
    | single h1 => exact (stepTransition_rank_lt h1).1
    | tail _ h2 ih => exact lt_trans ih (stepTransition_rank_lt h2).1
  refine ⟨hrank, ?_⟩
  intro heq
  rw [heq] at hrank
  exact lt_irrefl _ hrank

/-- Witness for C7: the chain `pending → running → succeeded` strictly
advances the status order and cannot return to `pending`. -/
theorem stepRecord_no_regression_witness :
    statusRank .pending < statusRank .succeeded
    ∧ StepStatus.pending ≠ StepStatus.succeeded :=
  stepRecord_no_regression
    (Relation.TransGen.head StepTransition.start
      (Relation.TransGen.single StepTransition.succeed))

/-! ## C8: executor clamps the contrast multiplier -/

/-- Modelled from the spec: executors clamp numeric tool parameters to
their documented safe bounds instead of rejecting the step; the "contrast"
multiplier's documented safe range is `[0.5, 2.0]` (§4.4;
docs/06_comfyui_integration.md "orchestrator clamps values to safe
ranges"; the Step Executor implementation is absent from the repository). -/
def clampContrast (x : ℚ) : ℚ := max (1/2) (min 2 x)

/-- Modelled from the spec: the executor's parameter validation for the
contrast multiplier — it always proceeds with the clamped value and never
raises an error for out-of-range values (§4.4). -/
def validateContrast (x : ℚ) : Except String ℚ := .ok (clampContrast x)

/-- C8: for every contrast value, parameter validation proceeds (no error
is raised) with the value clamped into `[0.5, 2.0]`, and values already in
the range pass through unchanged. -/
theorem contrast_clamped_not_rejected (x : ℚ) :
    validateContrast x = .ok (clampContrast x)
    ∧ (∀ e, validateContrast x ≠ .error e)
    ∧ 1/2 ≤ clampContrast x
    ∧ clampContrast x ≤ 2
    ∧ (1/2 ≤ x → x ≤ 2 → clampContrast x = x) := by
  refine ⟨rfl, ?_, le_max_left _ _, ?_, ?_⟩
  · intro e h
    cases h
  · unfold clampContrast
    rw [max_le_iff]
    constructor
    · norm_num
    · exact min_le_left _ _
  · intro h1 h2
    unfold clampContrast
    rw [min_eq_right h2, max_eq_right h1]

/-- Witness for C8: an out-of-range contrast of 3 is clamped into the safe
range rather than rejected, and an in-range contrast of 1 passes through. -/
theorem contrast_clamped_not_rejected_witness :
    validateContrast 3 = .ok (clampContrast 3)
    ∧ 1/2 ≤ clampContrast 3
    ∧ clampContrast 3 ≤ 2
    ∧ clampContrast 1 = 1 :=
  ⟨(contrast_clamped_not_rejected 3).1,
   (contrast_clamped_not_rejected 3).2.2.1,
   (contrast_clamped_not_rejected 3).2.2.2.1,
   (contrast_clamped_not_rejected 1).2.2.2.2 (by norm_num) (by norm_num)⟩

/-! ## C9: UI job-progress polling loop (apps/ui/src/app/page.tsx) -/

/-- The UI screens, from `type Screen` in apps/ui/src/app/page.tsx. -/
inductive Screen
  | intro
  | planScreen
  | progress
  | completion
deriving DecidableEq, Repr

/-- The stop condition of `pollJobStatus` in apps/ui/src/app/page.tsx:
`job.status === 'completed' || job.status === 'failed'`. -/
def shouldShowCompletion (status : String) : Bool :=
  status == "completed" || status == "failed"

/-- The observable state of the polling loop: the screen shown and whether
the interval is still active. -/
structure PollState where
  screen : Screen
  polling : Bool
deriving DecidableEq, Repr

/-- One interval tick of `pollJobStatus` with a successfully fetched job
status: if the status is `completed` or `failed` the interval is cleared
and the screen set to `completion`; otherwise nothing changes. -/
def pollTick (status : String) (st : PollState) : PollState :=
  if st.polling then
    if shouldShowCompletion status then ⟨.completion, false⟩ else st
  else st

/-- `n` consecutive ticks of the polling loop, the tick at position `i`
seeing the fetched status `statuses i`. -/
def pollRunFrom (statuses : Nat → String) (i : Nat) :
    Nat → PollState → PollState
  | 0, st => st
  | n + 1, st => pollRunFrom statuses (i + 1) n (pollTick (statuses i) st)

/-- C9: a tick of the polling loop stops polling and shows the completion
screen if and only if the fetched status is exactly `completed` or
`failed`; consequently, for a job stuck on any other status (such as the
terminal `partial`), the loop never leaves the progress screen and polls
forever. -/
theorem poll_stops_iff_completed_or_failed (status : String)
    (statuses : Nat → String)
    (hstuck : ∀ i, statuses i ≠ "completed" ∧ statuses i ≠ "failed") :
    (pollTick status ⟨.progress, true⟩ = ⟨.completion, false⟩
      ↔ (status = "completed" ∨ status = "failed"))
    ∧ (∀ i n, pollRunFrom statuses i n ⟨.progress, true⟩ = ⟨.progress, true⟩) := by
  constructor
  · unfold pollTick shouldShowCompletion
    by_cases h : status = "completed" ∨ status = "failed"
    · rcases h with h | h <;> simp [h]
    · push_neg at h
      have h1 : (status == "completed") = false := by
        simp [h.1]
      have h2 : (status == "failed") = false := by
        simp [h.2]
      simp [h1, h2, h.1, h.2]
  · intro i n
    induction n generalizing i with
    | zero => rfl
    | succ n ih =>
      have htick : pollTick (statuses i) ⟨.progress, true⟩ = ⟨.progress, true⟩ := by
        unfold pollTick shouldShowCompletion
        have h1 : (statuses i == "completed") = false := by
          simp [(hstuck i).1]
        have h2 : (statuses i == "failed") = false := by
          simp [(hstuck i).2]
        simp [h1, h2]
      show pollRunFrom statuses (i + 1) n (pollTick (statuses i) ⟨.progress, true⟩)
          = ⟨.progress, true⟩
      rw [htick]
      exact ih (i + 1)

/-- Witness for C9: a fetched `completed` status transitions to the
completion screen, while a job stuck on `partial` is still on the progress
screen and polling after five ticks. -/
theorem poll_stops_iff_completed_or_failed_witness :
    pollTick "completed" ⟨.progress, true⟩ = ⟨.completion, false⟩
    ∧ pollRunFrom (fun _ => "partial") 0 5 ⟨.progress, true⟩ = ⟨.progress, true⟩ :=
  ⟨(poll_stops_iff_completed_or_failed "completed" (fun _ => "partial")
      (by intro i
          show ("partial" : String) ≠ "completed" ∧ ("partial" : String) ≠ "failed"
          exact ⟨by decide, by decide⟩)).1.mpr (Or.inl rfl),
   (poll_stops_iff_completed_or_failed "completed" (fun _ => "partial")
      (by intro i
          show ("partial" : String) ≠ "completed" ∧ ("partial" : String) ≠ "failed"
          exact ⟨by decide, by decide⟩)).2 0 5⟩

/-! ## C10: jobs API route rejects missing or non-string intent -/

/-- JavaScript request-body values, from the jobs API route's dynamic
`req.body` (the route file of apps/ui's pages/api/jobs). -/
inductive JSValue
  | undef
  | nullVal
  | jsBool (b : Bool)
  | jsNum (n : Int)
  | jsStr (s : String)
deriving DecidableEq, Repr

/-- JavaScript truthiness of the embedded values: `undefined`, `null`,
`false`, `0` and `""` are falsy (`NaN` is not modelled; integers cover the
claim). -/
def JSValue.truthy : JSValue → Bool
  | .undef => false
  | .nullVal => false
  | .jsBool b => b
  | .jsNum n => n != 0
  | .jsStr s => s != ""

/-- `typeof v === 'string'` for the embedded values. -/
def JSValue.isStr : JSValue → Bool
  | .jsStr _ => true
  | _ => false

/-- HTTP methods distinguished by the route. -/
inductive HttpMethod
  | post
  | nonPost
deriving DecidableEq, Repr

/-- The orchestrator's possible outcomes for the forwarded request. -/
inductive OrchOutcome
  | ok (body : String)
  | httpError (status : Nat)
  | networkError (msg : String)
deriving DecidableEq, Repr

/-- Embedded from the jobs API route handler (apps/ui pages/api/jobs):
POST destructures `intent` from the body and rejects with 400
(`if (!intent || typeof intent !== 'string')`) before any fetch; otherwise
it forwards to the orchestrator, answering 200 on success and 500 when the
forwarded call throws; non-POST methods get 405.  The result is the HTTP
status sent and whether the request was forwarded to the orchestrator. -/
def jobsApiHandler (method : HttpMethod) (intent : JSValue)
    (orch : OrchOutcome) : Nat × Bool :=
  match method with
  | .post =>
    if !intent.truthy || !intent.isStr then (400, false)
    else
      match orch with
      | .ok _ => (200, true)
      | .httpError _ => (500, true)
      | .networkError _ => (500, true)
  | .nonPost => (405, false)

/-- C10: every POST whose body has no `intent` field (destructured as
`undefined`) or whose `intent` is not a string is answered with HTTP 400
and is never forwarded to the orchestrator, whatever the orchestrator
would have answered — so no job is created. -/
theorem nonstring_intent_rejected (intent : JSValue) (orch : OrchOutcome)
    (h : intent = .undef ∨ intent.isStr = false) :
    jobsApiHandler .post intent orch = (400, false) := by
  rcases h with rfl | h
  · rfl
  · cases intent <;> simp_all [jobsApiHandler, JSValue.isStr, JSValue.truthy]

/-- Witness for C10: a POST carrying the number 42 as `intent` is rejected
with 400 and not forwarded, even though the orchestrator was reachable. -/
theorem nonstring_intent_rejected_witness :
    jobsApiHandler .post (.jsNum 42) (.ok "job-1") = (400, false) :=
  nonstring_intent_rejected (.jsNum 42) (.ok "job-1") (Or.inr rfl)

end FileCherry
